import Mathlib

/-!
Verification of the wormhole-aware Game of Life engine
(`game_of_life_wormhole.py`): the wormhole table builder, the
neighbor-resolution algorithm with its diagonal precedence order, the
neighbor count, the generational step and the multi-step run.

Coordinates are modelled as pairs of `Int` (Python `%` on a positive
modulus agrees with `Int.emod`), grids as row-major `List (List Nat)`
of cell values, and the Python dict of wormhole connections as an
association list consulted by first-match lookup (assignment is `cons`,
which realises the overwrite semantics of dict assignment under
first-match lookup).
-/

namespace GameOfLifeWormhole

abbrev Color := Nat × Nat × Nat

abbrev Coord := Int × Int

abbrev WTable := List (Coord × Coord)

/-- The background color skipped by the builder: pure black `(0, 0, 0)`. -/
def black : Color := (0, 0, 0)

/-- Dictionary lookup: first entry whose key matches. -/
def wLookup : WTable → Coord → Option Coord
  | [], _ => none
  | (k, v) :: rest, p => if p = k then some v else wLookup rest p

/-- All positions `(y, x)` scanned by `_build_wormhole_connections`:
`y` over `range height`, `x` over `range width`. -/
def scanPositions (h w : Nat) : List Coord :=
  (List.range h).bind fun (y : Nat) =>
    (List.range w).map fun (x : Nat) => ((y : Int), (x : Int))

/-- `color_to_positions[c]`: the scan-ordered positions whose tunnel-map
pixel equals `c`. -/
def colorPositions (tm : Coord → Color) (h w : Nat) (c : Color) : List Coord :=
  (scanPositions h w).filter fun p => decide (tm p = c)

/-- The distinct non-black colors occurring in the scanned region:
the key set of `color_to_positions`. -/
def tunnelColors (tm : Coord → Color) (h w : Nat) : List Color :=
  (((scanPositions h w).map tm).filter fun c => decide (c ≠ black)).dedup

/-- One iteration of the builder's second loop: a color whose group has
exactly two positions `p1, p2` contributes `p1 → p2` and `p2 → p1`. -/
def addColorPair (tm : Coord → Color) (h w : Nat) (m : WTable) (c : Color) : WTable :=
  match colorPositions tm h w c with
  | [p1, p2] => (p2, p1) :: (p1, p2) :: m
  | _ => m

/-- `_build_wormhole_connections`: group non-black pixels by color and
connect every group of exactly two bidirectionally. -/
def buildWormholeConnections (tm : Coord → Color) (h w : Nat) : WTable :=
  (tunnelColors tm h w).foldl (addColorPair tm h w) []

/-- The engine state: dimensions, current grid, and the two immutable
wormhole tables. -/
structure Game where
  height : Nat
  width : Nat
  grid : List (List Nat)
  hWormholes : WTable
  vWormholes : WTable

/-- `_get_wormhole_neighbor(y, x, dy, dx)`: wormhole-aware neighbor
resolution, including the diagonal precedence order
top > right > bottom > left, falling through to toroidal wrap. -/
def getWormholeNeighbor (g : Game) (y x dy dx : Int) : Coord :=
  if dy = 0 ∧ dx ≠ 0 then
    match wLookup g.hWormholes (y, x) with
    | some (ny, nx) =>
        if dx > 0 then (ny, (nx + 1) % (g.width : Int))
        else (ny, (nx - 1) % (g.width : Int))
    | none => ((y + dy) % (g.height : Int), (x + dx) % (g.width : Int))
  else if dx = 0 ∧ dy ≠ 0 then
    match wLookup g.vWormholes (y, x) with
    | some (ny, nx) =>
        if dy > 0 then ((ny + 1) % (g.height : Int), nx)
        else ((ny - 1) % (g.height : Int), nx)
    | none => ((y + dy) % (g.height : Int), (x + dx) % (g.width : Int))
  else if dy ≠ 0 ∧ dx ≠ 0 then
    match (if dy < 0 then wLookup g.vWormholes (y, x) else none) with
    | some (ny, nx) => ((ny - 1) % (g.height : Int), (nx + dx) % (g.width : Int))
    | none =>
      match (if dx > 0 then wLookup g.hWormholes (y, x) else none) with
      | some (ny, nx) => ((ny + dy) % (g.height : Int), (nx + 1) % (g.width : Int))
      | none =>
        match (if dy > 0 then wLookup g.vWormholes (y, x) else none) with
        | some (ny, nx) => ((ny + 1) % (g.height : Int), (nx + dx) % (g.width : Int))
        | none =>
          match (if dx < 0 then wLookup g.hWormholes (y, x) else none) with
          | some (ny, nx) => ((ny + dy) % (g.height : Int), (nx - 1) % (g.width : Int))
          | none => ((y + dy) % (g.height : Int), (x + dx) % (g.width : Int))
  else ((y + dy) % (g.height : Int), (x + dx) % (g.width : Int))

/-- Row-major cell read `grid[y, x]`, defaulting to 0 out of range
(all reads performed by the engine are in range). -/
def gridGet (grid : List (List Nat)) (y x : Nat) : Nat :=
  (grid.getD y []).getD x 0

/-- The 8 direction vectors of `_count_neighbors`, in source order
(`dy` outer, `dx` inner, skipping `(0, 0)`). -/
def neighborDirs : List (Int × Int) :=
  [(-1, -1), (-1, 0), (-1, 1), (0, -1), (0, 1), (1, -1), (1, 0), (1, 1)]

/-- `_count_neighbors(grid, y, x)`: resolve each of the 8 directions
through `getWormholeNeighbor` and add the cell value when the resolved
coordinate passes the defensive bounds check. -/
def countNeighbors (g : Game) (grid : List (List Nat)) (y x : Int) : Nat :=
  neighborDirs.foldl
    (fun count d =>
      let p := getWormholeNeighbor g y x d.1 d.2
      if 0 ≤ p.1 ∧ p.1 < (g.height : Int) ∧ 0 ≤ p.2 ∧ p.2 < (g.width : Int) then
        count + gridGet grid p.1.toNat p.2.toNat
      else count)
    0

/-- `step()`'s new grid: start from a copy of the current grid and
overwrite per Conway's rules, all neighbor counts taken against the
pre-step grid. -/
def stepGrid (g : Game) : List (List Nat) :=
  (List.range g.height).map fun (y : Nat) =>
    (List.range g.width).map fun (x : Nat) =>
      let n := countNeighbors g g.grid (y : Int) (x : Int)
      let c := gridGet g.grid y x
      if c = 1 then (if n < 2 ∨ 3 < n then 0 else c)
      else (if n = 3 then 1 else c)

/-- `step()`: replace the engine's grid with the stepped grid. -/
def stepGame (g : Game) : Game := { g with grid := stepGrid g }

/-- `run_simulation(steps)` as a state transformer: `for _ in
range(steps)` performs `max steps 0` iterations of `step()`. -/
def runState (g : Game) (steps : Int) : Game := stepGame^[steps.toNat] g

/-- `run_simulation(steps)`: the grid returned after the loop. -/
def runSimulation (g : Game) (steps : Int) : List (List Nat) :=
  (runState g steps).grid

/-- A grid of booleans: every cell value is 0 or 1 (the engine's grids
are built from `(img_array > 128).astype(np.uint8)`). -/
def BooleanGrid (grid : List (List Nat)) : Prop :=
  ∀ row ∈ grid, ∀ v ∈ row, v = 0 ∨ v = 1

/-- The 3×3 horizontal blinker with both wormhole tables empty. -/
def blinker : Game :=
  { height := 3, width := 3
    grid := [[0, 0, 0], [1, 1, 1], [0, 0, 0]]
    hWormholes := [], vWormholes := [] }

/-- C9 counterexample: on the 3×3 grid with the center row alive and no
wormholes, one step does not produce the vertical blinker — toroidal
wrap gives every row-0 and row-2 cell exactly the three live row-1
cells as neighbors and lets the row endpoints survive with count 2, so
every cell becomes alive. -/
theorem blinker_not_oscillating :
    ¬(stepGrid blinker = [[0, 1, 0], [0, 1, 0], [0, 1, 0]] ∧
      stepGrid (stepGame blinker) = [[0, 0, 0], [1, 1, 1], [0, 0, 0]]) := by
  decide

/-- C9 amended: on the 3×3 toroidal grid with exactly the center row
alive and empty wormhole tables, one step produces the all-alive grid
and a second step produces the all-dead grid. -/
theorem blinker_three_by_three_steps :
    stepGrid blinker = [[1, 1, 1], [1, 1, 1], [1, 1, 1]] ∧
    stepGrid (stepGame blinker) = [[0, 0, 0], [0, 0, 0], [0, 0, 0]] := by
  constructor <;> decide

/-- C10: `run_simulation` with a negative step count performs zero
steps — the state and the returned grid are unchanged. -/
theorem run_simulation_neg (g : Game) (s : Int) (hs : s < 0) :
    runState g s = g ∧ runSimulation g s = g.grid := by
  have h0 : s.toNat = 0 := Int.toNat_of_nonpos (le_of_lt hs)
  constructor
  · simp [runState, h0]
  · simp [runSimulation, runState, h0]

/-- C10 witness at `s = -1`. -/
theorem run_simulation_neg_witness :
    runState blinker (-1) = blinker ∧ runSimulation blinker (-1) = blinker.grid :=
  run_simulation_neg blinker (-1) (by decide)

/-- C8: `run_simulation 0` returns the current grid unchanged, and
running `a` then `b` steps (both non-negative) equals running `a + b`
steps from the same start. -/
theorem run_simulation_compose (g : Game) (a b : Int) (ha : 0 ≤ a) (hb : 0 ≤ b) :
    runSimulation g 0 = g.grid ∧ runState (runState g a) b = runState g (a + b) := by
  constructor
  · simp [runSimulation, runState]
  · unfold runState
    rw [Int.toNat_add ha hb, Nat.add_comm, Function.iterate_add_apply]

/-- C8 witness: one step then one step equals two steps on the blinker. -/
theorem run_simulation_compose_witness :
    runSimulation blinker 0 = blinker.grid ∧
    runState (runState blinker 1) 1 = runState blinker 2 :=
  run_simulation_compose blinker 1 1 (by decide) (by decide)

/-- C3: a key of the horizontal table moving purely horizontally exits
one extra step past the paired cell, `(ny, (nx + dx) mod width)`;
symmetrically for pure vertical movement through the vertical table. -/
theorem wormhole_exit_one_past_pair (g : Game) (y x : Int) :
    (∀ ny nx dx : Int, wLookup g.hWormholes (y, x) = some (ny, nx) →
      dx = 1 ∨ dx = -1 →
      getWormholeNeighbor g y x 0 dx = (ny, (nx + dx) % (g.width : Int))) ∧
    (∀ ny nx dy : Int, wLookup g.vWormholes (y, x) = some (ny, nx) →
      dy = 1 ∨ dy = -1 →
      getWormholeNeighbor g y x dy 0 = ((ny + dy) % (g.height : Int), nx)) := by
  constructor
  · rintro ny nx dx hh (rfl | rfl) <;> simp [getWormholeNeighbor, hh, sub_eq_add_neg]
  · rintro ny nx dy hv (rfl | rfl) <;> simp [getWormholeNeighbor, hv, sub_eq_add_neg]

/-- The 1×3 game of the spec's scenario: a horizontal wormhole pairing
column 0 with column 2. -/
def rowGame : Game :=
  { height := 1, width := 3
    grid := [[0, 0, 0]]
    hWormholes := [((0, 0), (0, 2)), ((0, 2), (0, 0))]
    vWormholes := [] }

/-- C3 witness: moving rightward from the key `(0, 2)` paired with
`(0, 0)` lands at column 1, one past the pair. -/
theorem wormhole_exit_one_past_pair_witness :
    getWormholeNeighbor rowGame 0 2 0 1 = ((0 : Int), (1 : Int)) := by
  have h := (wormhole_exit_one_past_pair rowGame 0 2).1 0 0 1 rfl (Or.inl rfl)
  simpa using h

/-- C4: diagonal movement upward (`dy < 0`, `dx ≠ 0`) from a cell that
is a key of both tables resolves through the vertical table (top
precedence) — destination `((ny - 1) mod height, (nx + dx) mod width)`
from the vertical pair — never through the horizontal table. -/
theorem diagonal_top_precedence (g : Game) (y x ny nx dy dx : Int)
    (hv : wLookup g.vWormholes (y, x) = some (ny, nx))
    (hh : (wLookup g.hWormholes (y, x)).isSome)
    (hdy : dy < 0) (hdx : dx ≠ 0) :
    getWormholeNeighbor g y x dy dx =
      ((ny - 1) % (g.height : Int), (nx + dx) % (g.width : Int)) := by
  have hdy0 : dy ≠ 0 := ne_of_lt hdy
  unfold getWormholeNeighbor
  rw [if_neg (by tauto), if_neg (by tauto), if_pos ⟨hdy0, hdx⟩, if_pos hdy, hv]

/-- The 2×2 game whose cell `(0, 0)` is a key of both tables. -/
def bothGame : Game :=
  { height := 2, width := 2
    grid := [[0, 0], [0, 0]]
    hWormholes := [((0, 0), (0, 1)), ((0, 1), (0, 0))]
    vWormholes := [((0, 0), (1, 0)), ((1, 0), (0, 0))] }

/-- C4 witness: up-right movement from the doubly-keyed cell `(0, 0)`
resolves through the vertical pair `(1, 0)` to `(0, 1)`. -/
theorem diagonal_top_precedence_witness :
    getWormholeNeighbor bothGame 0 0 (-1) 1 = ((0 : Int), (1 : Int)) := by
  have h := diagonal_top_precedence bothGame 0 0 1 0 (-1) 1 rfl (by decide)
    (by decide) (by decide)
  simpa using h

lemma getD_map_range {α : Type} (f : Nat → α) (w i : Nat) (d : α) (h : i < w) :
    ((List.range w).map f).getD i d = f i := by
  have hl : i < ((List.range w).map f).length := by simpa using h
  rw [List.getD_eq_getElem _ _ hl, List.getElem_map, List.getElem_range]

/-- C1: the stepped grid has the engine's dimensions and each in-range
cell follows Conway's rule on the pre-step grid's wormhole-aware
neighbor count: a live cell dies iff its count is < 2 or > 3, and a
dead cell becomes alive iff its count is exactly 3. -/
theorem step_cell_rule (g : Game) (y x : Nat) (hy : y < g.height) (hx : x < g.width)
    (hc : gridGet g.grid y x = 0 ∨ gridGet g.grid y x = 1) :
    (stepGrid g).length = g.height ∧
    (∀ row ∈ stepGrid g, row.length = g.width) ∧
    gridGet (stepGrid g) y x =
      (if gridGet g.grid y x = 1 then
        (if countNeighbors g g.grid (y : Int) (x : Int) < 2 ∨
            3 < countNeighbors g g.grid (y : Int) (x : Int) then 0 else 1)
      else (if countNeighbors g g.grid (y : Int) (x : Int) = 3 then 1 else 0)) := by
  refine ⟨by simp [stepGrid], ?_, ?_⟩
  · intro row hrow
    unfold stepGrid at hrow
    obtain ⟨a, _, rfl⟩ := List.mem_map.1 hrow
    simp [List.length_map, List.length_range]
  · show ((stepGrid g).getD y []).getD x 0 = _
    unfold stepGrid
    rw [getD_map_range _ _ _ _ hy, getD_map_range _ _ _ _ hx]
    rcases hc with h0 | h0 <;> simp [h0]

/-- C1 witness at the blinker's center cell. -/
theorem step_cell_rule_witness :
    gridGet (stepGrid blinker) 1 1 =
      (if gridGet blinker.grid 1 1 = 1 then
        (if countNeighbors blinker blinker.grid 1 1 < 2 ∨
            3 < countNeighbors blinker blinker.grid 1 1 then 0 else 1)
      else (if countNeighbors blinker blinker.grid 1 1 = 3 then 1 else 0)) :=
  (step_cell_rule blinker 1 1 (by decide) (by decide) (Or.inr (by decide))).2.2

lemma wLookup_cons (k v : Coord) (m : WTable) (p : Coord) :
    wLookup ((k, v) :: m) p = if p = k then some v else wLookup m p := rfl

lemma colorPositions_mem {tm : Coord → Color} {h w : Nat} {c : Color} {p : Coord}
    (hp : p ∈ colorPositions tm h w c) : p ∈ scanPositions h w ∧ tm p = c := by
  unfold colorPositions at hp
  have h2 := List.mem_filter.1 hp
  exact ⟨h2.1, of_decide_eq_true h2.2⟩

lemma tunnelColors_ne_black {tm : Coord → Color} {h w : Nat} {c : Color}
    (hc : c ∈ tunnelColors tm h w) : c ≠ black := by
  unfold tunnelColors at hc
  have h2 := List.mem_dedup.1 hc
  exact of_decide_eq_true (List.mem_filter.1 h2).2

lemma scanPositions_bounds {h w : Nat} {p : Coord} (hp : p ∈ scanPositions h w) :
    0 ≤ p.1 ∧ p.1 < (h : Int) ∧ 0 ≤ p.2 ∧ p.2 < (w : Int) := by
  unfold scanPositions at hp
  obtain ⟨y, hy, hmem⟩ := List.mem_bind.1 hp
  obtain ⟨x, hx, rfl⟩ := List.mem_map.1 hmem
  have hy' : (y : Int) < (h : Int) := by exact_mod_cast List.mem_range.1 hy
  have hx' : (x : Int) < (w : Int) := by exact_mod_cast List.mem_range.1 hx
  exact ⟨Int.natCast_nonneg y, hy', Int.natCast_nonneg x, hx'⟩

lemma addColorPair_eq_two {tm : Coord → Color} {h w : Nat} {c : Color} {p1 p2 : Coord}
    (hcp : colorPositions tm h w c = [p1, p2]) (m : WTable) :
    addColorPair tm h w m c = (p2, p1) :: (p1, p2) :: m := by
  unfold addColorPair
  rw [hcp]

lemma addColorPair_eq_other {tm : Coord → Color} {h w : Nat} {c : Color}
    (hcp : ∀ p1 p2 : Coord, colorPositions tm h w c ≠ [p1, p2]) (m : WTable) :
    addColorPair tm h w m c = m := by
  unfold addColorPair
  rcases hl : colorPositions tm h w c with - | ⟨p1, - | ⟨p2, - | ⟨p3, rest⟩⟩⟩
  · rfl
  · rfl
  · exact absurd hl (hcp p1 p2)
  · rfl

lemma foldl_addColorPair_lookup (tm : Coord → Color) (h w : Nat) (Q : Coord → Coord → Prop)
    (hQ : ∀ c p1 p2, c ∈ tunnelColors tm h w → colorPositions tm h w c = [p1, p2] →
      Q p1 p2 ∧ Q p2 p1) :
    ∀ (cs : List Color) (m : WTable), (∀ c ∈ cs, c ∈ tunnelColors tm h w) →
      (∀ a b, wLookup m a = some b → Q a b) →
      ∀ a b, wLookup (cs.foldl (addColorPair tm h w) m) a = some b → Q a b := by
  intro cs
  induction cs with
  | nil => intro m _ hm a b hab; exact hm a b hab
  | cons c cs ih =>
    intro m hsub hm a b hab
    rw [List.foldl_cons] at hab
    refine ih (addColorPair tm h w m c)
      (fun c' hc' => hsub c' (List.mem_cons_of_mem _ hc')) ?_ a b hab
    intro a' b' hab'
    rcases hcp : colorPositions tm h w c with - | ⟨p1, - | ⟨p2, - | ⟨p3, rest⟩⟩⟩
    · rw [addColorPair_eq_other (by simp [hcp]) m] at hab'
      exact hm a' b' hab'
    · rw [addColorPair_eq_other (by simp [hcp]) m] at hab'
      exact hm a' b' hab'
    · rw [addColorPair_eq_two hcp m] at hab'
      have hpair := hQ c p1 p2 (hsub c (List.mem_cons_self c cs)) hcp
      rw [wLookup_cons, wLookup_cons] at hab'
      by_cases h2 : a' = p2
      · subst h2
        rw [if_pos rfl] at hab'
        injection hab' with hb
        subst hb
        exact hpair.2
      · rw [if_neg h2] at hab'
        by_cases h1 : a' = p1
        · subst h1
          rw [if_pos rfl] at hab'
          injection hab' with hb
          subst hb
          exact hpair.1
        · rw [if_neg h1] at hab'
          exact hm a' b' hab'
    · rw [addColorPair_eq_other (by simp [hcp]) m] at hab'
      exact hm a' b' hab'

lemma build_lookup_Q (tm : Coord → Color) (h w : Nat) (Q : Coord → Coord → Prop)
    (hQ : ∀ c p1 p2, c ∈ tunnelColors tm h w → colorPositions tm h w c = [p1, p2] →
      Q p1 p2 ∧ Q p2 p1)
    (a b : Coord) (hab : wLookup (buildWormholeConnections tm h w) a = some b) : Q a b := by
  refine foldl_addColorPair_lookup tm h w Q hQ (tunnelColors tm h w) []
    (fun c hc => hc) ?_ a b hab
  intro a' b' hab'
  simp [wLookup] at hab'

lemma foldl_addColorPair_sym (tm : Coord → Color) (h w : Nat) :
    ∀ (cs : List Color) (m : WTable), cs.Nodup →
      (∀ a b, wLookup m a = some b → wLookup m b = some a) →
      (∀ a, (wLookup m a).isSome → tm a ∉ cs) →
      ∀ a b, wLookup (cs.foldl (addColorPair tm h w) m) a = some b →
        wLookup (cs.foldl (addColorPair tm h w) m) b = some a := by
  intro cs
  induction cs with
  | nil => intro m _ hsym _ a b hab; exact hsym a b hab
  | cons c cs ih =>
    intro m hnd hsym hkeys a b hab
    rw [List.foldl_cons] at hab ⊢
    have hnd' := List.nodup_cons.1 hnd
    rcases hcp : colorPositions tm h w c with - | ⟨p1, - | ⟨p2, - | ⟨p3, rest⟩⟩⟩
    · rw [addColorPair_eq_other (by simp [hcp]) m] at hab ⊢
      exact ih m hnd'.2 hsym
        (fun a' ha' hmem => hkeys a' ha' (List.mem_cons_of_mem c hmem)) a b hab
    · rw [addColorPair_eq_other (by simp [hcp]) m] at hab ⊢
      exact ih m hnd'.2 hsym
        (fun a' ha' hmem => hkeys a' ha' (List.mem_cons_of_mem c hmem)) a b hab
    · rw [addColorPair_eq_two hcp m] at hab ⊢
      have hc1 : tm p1 = c := (colorPositions_mem (by rw [hcp]; simp)).2
      have hc2 : tm p2 = c := (colorPositions_mem (by rw [hcp]; simp)).2
      refine ih ((p2, p1) :: (p1, p2) :: m) hnd'.2 ?_ ?_ a b hab
      · intro a' b' hab'
        rw [wLookup_cons, wLookup_cons] at hab'
        by_cases h2 : a' = p2
        · rw [if_pos h2] at hab'
          injection hab' with hb
          rw [← hb, h2, wLookup_cons, wLookup_cons]
          by_cases h12 : p1 = p2
          · rw [if_pos h12, h12]
          · rw [if_neg h12, if_pos rfl]
        · rw [if_neg h2] at hab'
          by_cases h1 : a' = p1
          · rw [if_pos h1] at hab'
            injection hab' with hb
            rw [← hb, h1, wLookup_cons, if_pos rfl]
          · rw [if_neg h1] at hab'
            have hsymb := hsym a' b' hab'
            have hbkey : tm b' ∉ c :: cs := hkeys b' (by rw [hsymb]; rfl)
            have hb1 : b' ≠ p1 := by
              intro he
              exact hbkey (by rw [he, hc1]; exact List.mem_cons_self c cs)
            have hb2 : b' ≠ p2 := by
              intro he
              exact hbkey (by rw [he, hc2]; exact List.mem_cons_self c cs)
            rw [wLookup_cons, wLookup_cons, if_neg hb2, if_neg hb1]
            exact hsymb
      · intro a' ha'
        rw [wLookup_cons, wLookup_cons] at ha'
        by_cases h2 : a' = p2
        · subst h2
          rw [hc2]
          exact hnd'.1
        · by_cases h1 : a' = p1
          · subst h1
            rw [hc1]
            exact hnd'.1
          · rw [if_neg h2, if_neg h1] at ha'
            exact fun hmem => hkeys a' ha' (List.mem_cons_of_mem c hmem)
    · rw [addColorPair_eq_other (by simp [hcp]) m] at hab ⊢
      exact ih m hnd'.2 hsym
        (fun a' ha' hmem => hkeys a' ha' (List.mem_cons_of_mem c hmem)) a b hab

/-- C5: every built wormhole table is symmetric — if `k` maps to `v`
then `v` maps back to `k`. -/
theorem wormhole_table_symmetric (tm : Coord → Color) (h w : Nat) (k v : Coord)
    (hk : wLookup (buildWormholeConnections tm h w) k = some v) :
    wLookup (buildWormholeConnections tm h w) v = some k := by
  refine foldl_addColorPair_sym tm h w (tunnelColors tm h w) []
    (by unfold tunnelColors; exact List.nodup_dedup _) ?_ ?_ k v hk
  · intro a b hab
    simp [wLookup] at hab
  · intro a ha
    simp [wLookup] at ha

/-- A 1×2 tunnel map whose two cells share one non-black color. -/
def tmPair : Coord → Color := fun _ => (5, 5, 5)

/-- C5 witness: in the table built from `tmPair`, the pair of `(0, 1)`
is `(0, 0)`, the mirror of `(0, 0) → (0, 1)`. -/
theorem wormhole_table_symmetric_witness :
    wLookup (buildWormholeConnections tmPair 1 2) ((0 : Int), (1 : Int)) =
      some ((0 : Int), (0 : Int)) :=
  wormhole_table_symmetric tmPair 1 2 (0, 0) (0, 1) (by decide)

/-- C6: the builder silently drops color groups of size ≠ 2 — no
position of such a group is a key of the table, and every key's color
is non-black with exactly two positions. -/
theorem builder_ignores_non_pairs (tm : Coord → Color) (h w : Nat) :
    (∀ p : Coord, (colorPositions tm h w (tm p)).length = 1 ∨
        3 ≤ (colorPositions tm h w (tm p)).length →
      wLookup (buildWormholeConnections tm h w) p = none) ∧
    (∀ p q : Coord, wLookup (buildWormholeConnections tm h w) p = some q →
      tm p ≠ black ∧ (colorPositions tm h w (tm p)).length = 2) := by
  have key : ∀ p q, wLookup (buildWormholeConnections tm h w) p = some q →
      tm p ≠ black ∧ (colorPositions tm h w (tm p)).length = 2 := by
    intro p q hpq
    refine build_lookup_Q tm h w
      (fun a _ => tm a ≠ black ∧ (colorPositions tm h w (tm a)).length = 2) ?_ p q hpq
    intro c p1 p2 hc hcp
    have hc1 : tm p1 = c := (colorPositions_mem (by rw [hcp]; simp)).2
    have hc2 : tm p2 = c := (colorPositions_mem (by rw [hcp]; simp)).2
    have hblack := tunnelColors_ne_black hc
    refine ⟨⟨by rw [hc1]; exact hblack, by simp [hc1, hcp]⟩,
      ⟨by rw [hc2]; exact hblack, by simp [hc2, hcp]⟩⟩
  refine ⟨?_, key⟩
  intro p hp
  cases hlk : wLookup (buildWormholeConnections tm h w) p with
  | none => rfl
  | some q =>
    have h2 := (key p q hlk).2
    omega

/-- A 2×2 tunnel map with a single non-black cell. -/
def tmSingle : Coord → Color := fun p => if p = (0, 0) then (1, 1, 1) else black

/-- C6 witness: the singleton color group of `tmSingle` yields no key. -/
theorem builder_ignores_non_pairs_witness :
    wLookup (buildWormholeConnections tmSingle 2 2) ((0 : Int), (0 : Int)) = none :=
  (builder_ignores_non_pairs tmSingle 2 2).1 (0, 0) (Or.inl (by decide))

/-- Follows the spec's words (refinement target): in plain toroidal
Game of Life every neighbor of `(y, x)` in direction `(dy, dx)` is the
cell at `((y + dy) mod height, (x + dx) mod width)`. -/
def toroidalCount (grid : List (List Nat)) (h w : Nat) (y x : Int) : Nat :=
  neighborDirs.foldl
    (fun count d =>
      count + gridGet grid ((y + d.1) % (h : Int)).toNat ((x + d.2) % (w : Int)).toNat)
    0

/-- Follows the spec's words (refinement target): one step of standard
toroidal Game of Life on a boolean grid. -/
def toroidalStep (grid : List (List Nat)) (h w : Nat) : List (List Nat) :=
  (List.range h).map fun (y : Nat) =>
    (List.range w).map fun (x : Nat) =>
      let n := toroidalCount grid h w (y : Int) (x : Int)
      if gridGet grid y x = 1 then (if n < 2 ∨ 3 < n then 0 else 1)
      else (if n = 3 then 1 else 0)

lemma getWormholeNeighbor_empty (g : Game) (hh : g.hWormholes = [])
    (hv : g.vWormholes = []) (y x dy dx : Int) :
    getWormholeNeighbor g y x dy dx =
      ((y + dy) % (g.height : Int), (x + dx) % (g.width : Int)) := by
  unfold getWormholeNeighbor
  rw [hh, hv]
  simp [wLookup]

lemma ite_mod_bounds {H W : Int} (hH : 0 < H) (hW : 0 < W) (a b : Int) (p v : Nat) :
    (if 0 ≤ a % H ∧ a % H < H ∧ 0 ≤ b % W ∧ b % W < W then p + v else p) = p + v :=
  if_pos ⟨Int.emod_nonneg a (ne_of_gt hH), Int.emod_lt_of_pos a hH,
    Int.emod_nonneg b (ne_of_gt hW), Int.emod_lt_of_pos b hW⟩

lemma countNeighbors_no_wormholes (g : Game) (hh : g.hWormholes = [])
    (hv : g.vWormholes = []) (hH : 0 < g.height) (hW : 0 < g.width)
    (grid : List (List Nat)) (y x : Int) :
    countNeighbors g grid y x = toroidalCount grid g.height g.width y x := by
  have hH' : (0 : Int) < (g.height : Int) := by exact_mod_cast hH
  have hW' : (0 : Int) < (g.width : Int) := by exact_mod_cast hW
  unfold countNeighbors toroidalCount neighborDirs
  simp only [List.foldl_cons, List.foldl_nil, getWormholeNeighbor_empty g hh hv]
  simp only [ite_mod_bounds hH' hW']

lemma getD_mem_or {α : Type} (l : List α) (n : Nat) (d : α) :
    l.getD n d ∈ l ∨ l.getD n d = d := by
  by_cases hn : n < l.length
  · left
    rw [List.getD_eq_getElem _ _ hn]
    exact List.getElem_mem hn
  · right
    exact List.getD_eq_default _ _ (le_of_not_lt hn)

lemma gridGet_boolean {grid : List (List Nat)} (hb : BooleanGrid grid) (y x : Nat) :
    gridGet grid y x = 0 ∨ gridGet grid y x = 1 := by
  unfold gridGet
  rcases getD_mem_or grid y [] with hrow | hrow
  · rcases getD_mem_or (grid.getD y []) x 0 with hv | hv
    · exact hb _ hrow _ hv
    · exact Or.inl hv
  · rw [hrow]
    left
    rfl

/-- C2: with both wormhole tables empty, neighbor resolution is exactly
the toroidal wrap and `step()` coincides with a plain toroidal Game of
Life step. -/
theorem step_no_wormholes_is_toroidal (g : Game) (hh : g.hWormholes = [])
    (hv : g.vWormholes = []) (hb : BooleanGrid g.grid) :
    (∀ y x dy dx : Int, getWormholeNeighbor g y x dy dx =
      ((y + dy) % (g.height : Int), (x + dx) % (g.width : Int))) ∧
    stepGrid g = toroidalStep g.grid g.height g.width := by
  refine ⟨getWormholeNeighbor_empty g hh hv, ?_⟩
  unfold stepGrid toroidalStep
  apply List.map_congr_left
  intro y hy
  apply List.map_congr_left
  intro x hx
  have hH : 0 < g.height := by have := List.mem_range.1 hy; omega
  have hW : 0 < g.width := by have := List.mem_range.1 hx; omega
  have hcount := countNeighbors_no_wormholes g hh hv hH hW g.grid (y : Int) (x : Int)
  rcases gridGet_boolean hb y x with h0 | h0 <;> simp [hcount, h0]

/-- C2 witness: the blinker game has empty tables and a boolean grid,
so its step is the toroidal step. -/
theorem step_no_wormholes_is_toroidal_witness :
    stepGrid blinker = toroidalStep blinker.grid 3 3 :=
  (step_no_wormholes_is_toroidal blinker rfl rfl (by unfold BooleanGrid; decide)).2

/-- The defensive bounds predicate of `_count_neighbors`:
`0 <= ny < height and 0 <= nx < width`. -/
def inGrid (g : Game) (p : Coord) : Prop :=
  0 ≤ p.1 ∧ p.1 < (g.height : Int) ∧ 0 ≤ p.2 ∧ p.2 < (g.width : Int)

lemma build_lookup_bounds {tm : Coord → Color} {h w : Nat} {p q : Coord}
    (hq : wLookup (buildWormholeConnections tm h w) p = some q) :
    0 ≤ q.1 ∧ q.1 < (h : Int) ∧ 0 ≤ q.2 ∧ q.2 < (w : Int) := by
  refine build_lookup_Q tm h w
    (fun _ b => 0 ≤ b.1 ∧ b.1 < (h : Int) ∧ 0 ≤ b.2 ∧ b.2 < (w : Int)) ?_ p q hq
  intro c p1 p2 _ hcp
  have h1 := scanPositions_bounds (colorPositions_mem (p := p1) (by rw [hcp]; simp)).1
  have h2 := scanPositions_bounds (colorPositions_mem (p := p2) (by rw [hcp]; simp)).1
  exact ⟨h2, h1⟩

lemma emod_cast_bounds {n : Nat} (hn : 0 < n) (a : Int) :
    0 ≤ a % (n : Int) ∧ a % (n : Int) < (n : Int) := by
  have hn' : (0 : Int) < (n : Int) := by exact_mod_cast hn
  exact ⟨Int.emod_nonneg a (ne_of_gt hn'), Int.emod_lt_of_pos a hn'⟩

lemma gridGet_le_one {grid : List (List Nat)} (hb : BooleanGrid grid) (y x : Nat) :
    gridGet grid y x ≤ 1 := by
  rcases gridGet_boolean hb y x with h | h <;> omega

lemma foldl_add_le {α : Type} (f : Nat → α → Nat) (hf : ∀ acc d, f acc d ≤ acc + 1) :
    ∀ (l : List α) (acc : Nat), l.foldl f acc ≤ acc + l.length := by
  intro l
  induction l with
  | nil => intro acc; simp
  | cons d l ih =>
    intro acc
    rw [List.foldl_cons]
    have h1 := ih (f acc d)
    have h2 := hf acc d
    simp only [List.length_cons]
    omega

/-- C7: with both tables built from same-dimension tunnel maps on a
positive-size boolean grid, every resolved neighbor passes the
defensive bounds check, and the neighbor count is at most 8. -/
theorem neighbor_resolution_in_bounds (g : Game) (tmh tmv : Coord → Color)
    (hH : 0 < g.height) (hW : 0 < g.width)
    (hht : g.hWormholes = buildWormholeConnections tmh g.height g.width)
    (hvt : g.vWormholes = buildWormholeConnections tmv g.height g.width)
    (hb : BooleanGrid g.grid) (y x : Int) :
    (∀ dy dx : Int, inGrid g (getWormholeNeighbor g y x dy dx)) ∧
    countNeighbors g g.grid y x ≤ 8 := by
  have hmh := emod_cast_bounds hH
  have hmw := emod_cast_bounds hW
  constructor
  · intro dy dx
    have hbh : ∀ q, wLookup g.hWormholes (y, x) = some q →
        0 ≤ q.1 ∧ q.1 < (g.height : Int) ∧ 0 ≤ q.2 ∧ q.2 < (g.width : Int) :=
      fun q hq => build_lookup_bounds (hht ▸ hq)
    have hbv : ∀ q, wLookup g.vWormholes (y, x) = some q →
        0 ≤ q.1 ∧ q.1 < (g.height : Int) ∧ 0 ≤ q.2 ∧ q.2 < (g.width : Int) :=
      fun q hq => build_lookup_bounds (hvt ▸ hq)
    unfold getWormholeNeighbor
    rcases hlh : wLookup g.hWormholes (y, x) with - | ⟨ay, ax⟩ <;>
      rcases hlv : wLookup g.vWormholes (y, x) with - | ⟨py, px⟩ <;>
      simp only [hlh, hlv] <;>
      split_ifs <;>
      first
      | exact ⟨(hmh _).1, (hmh _).2, (hmw _).1, (hmw _).2⟩
      | exact ⟨(hbh _ hlh).1, (hbh _ hlh).2.1, (hmw _).1, (hmw _).2⟩
      | exact ⟨(hmh _).1, (hmh _).2, (hbv _ hlv).2.2.1, (hbv _ hlv).2.2.2⟩
  · unfold countNeighbors
    refine le_trans (foldl_add_le _ ?_ neighborDirs 0) (by simp [neighborDirs])
    intro acc d
    dsimp only
    split
    · exact Nat.add_le_add_left (gridGet_le_one hb _ _) acc
    · omega

/-- A 2×2 game with both tables built from the 2×2 tunnel map
`tmSingle`. -/
def builtGame : Game :=
  { height := 2, width := 2
    grid := [[1, 0], [0, 1]]
    hWormholes := buildWormholeConnections tmSingle 2 2
    vWormholes := buildWormholeConnections tmSingle 2 2 }

/-- C7 witness: one resolved neighbor of `builtGame` in bounds and its
neighbor count at most 8. -/
theorem neighbor_resolution_in_bounds_witness :
    inGrid builtGame (getWormholeNeighbor builtGame 0 0 (-1) 0) ∧
    countNeighbors builtGame builtGame.grid 0 0 ≤ 8 :=
  ⟨(neighbor_resolution_in_bounds builtGame tmSingle tmSingle (by decide) (by decide)
      rfl rfl (by unfold BooleanGrid; decide) 0 0).1 (-1) 0,
   (neighbor_resolution_in_bounds builtGame tmSingle tmSingle (by decide) (by decide)
      rfl rfl (by unfold BooleanGrid; decide) 0 0).2⟩

end GameOfLifeWormhole
